import Mathlib

/-!
The godis store: the single-database store (`database/single_db.go`)

A sequential, shallow embedding of `DB` and of its key-lifecycle operations
`Remove`, `Expire`, `Persist`, `IsExpired`, of the closure that `Expire` hands to the
time wheel, and of `RWLocks` / `RWUnLocks`.

Conventions
* `time.Time` is an integer instant; `t.After u` is the strict order `u < t`.
* `dict.Dict` and the `timewheel` package are collaborators whose code is not part of
  `single_db.go`; they are modelled from their contract as finite maps seen through
  their lookup function.
* The closure scheduled by `Expire` captures only `db` and `key` (its own `expireTime`
  shadows the captured one), so a pending task is recorded as the pair of the instant
  it is scheduled at and the captured key.
* `stopWorld.Wait()` returns at once when the wait group counter is zero; no code of
  `single_db.go` ever raises the counter, so the state functions below treat the wait
  as a step without effect on the data. The order in which an operation performs the
  wait is kept in the effect sequences (`RemoveEffs`, `ExpireEffs`, ...).
-/

namespace Godis

/-- Instants of `time.Time`, as an integer count of clock ticks. -/
abbrev Time := Int

/-- Modelled from the spec: the Concurrent Map (`godis/datastruct/dict`, `dict.Dict`),
a mapping from string keys to values with `get(key) -> (value, found)`,
`put(key, value)` and `remove(key)`. -/
abbrev Dict (α : Type) := String → Option α

namespace Dict

/-- Modelled from the spec: the empty Concurrent Map, as built by `dict.MakeConcurrent`
and `dict.MakeSimple`. -/
def Make {α : Type} : Dict α := fun _ => none

/-- Modelled from the spec: `get(key) -> (value, found)` of the Concurrent Map. -/
def Get {α : Type} (d : Dict α) (key : String) : Option α := d key

/-- Modelled from the spec: `put(key, value)` of the Concurrent Map. -/
def Put {α : Type} (d : Dict α) (key : String) (val : α) : Dict α :=
  fun k => if k = key then some val else d k

/-- Modelled from the spec: `remove(key)` of the Concurrent Map. -/
def Remove {α : Type} (d : Dict α) (key : String) : Dict α :=
  fun k => if k = key then none else d k

end Dict

/-- A task pending in the time wheel: the instant it is scheduled at and the key
captured by the closure that `Expire` registered. -/
structure Task where
  expireTime : Time
  key : String
  deriving DecidableEq, Repr

/-- Modelled from the spec: the Delay Scheduler (`godis/lib/timewheel`), the table of
pending callbacks by task name. -/
abbrev TimeWheel := Dict Task

namespace timewheel

/-- Modelled from the spec: `scheduleAt(timestamp, taskName, callback)`; "scheduling
under an existing `taskName` replaces the prior schedule". -/
def At (tw : TimeWheel) (expireTime : Time) (taskKey : String) (key : String) : TimeWheel :=
  Dict.Put tw taskKey ⟨expireTime, key⟩

/-- Modelled from the spec: `cancel(taskName)` of the Delay Scheduler. -/
def Cancel (tw : TimeWheel) (taskKey : String) : TimeWheel :=
  Dict.Remove tw taskKey

end timewheel

/-- The store `DB` (`index`, `data`, `ttlMap`, `versionMap`) together with the pending
tasks of the time wheel it schedules its expirations on. The value type `V` stands for
the `DataEntity` the core never inspects; `ttlMap` only ever receives `time.Time` values
(from `Expire`), so the type assertion of its readers always succeeds. The fields
`locker`, `stopWorld` and `addAof` carry no data that the operations below read or
write: their calls appear in the effect sequences. -/
structure DB (V : Type) where
  index : Int
  data : Dict V
  ttlMap : Dict Time
  versionMap : Dict Nat
  tasks : TimeWheel

/-- Embedding of `makeDB`: all three maps empty, `index` at its zero value, and no task
scheduled yet. -/
def makeDB {V : Type} : DB V :=
  { index := 0, data := Dict.Make, ttlMap := Dict.Make, versionMap := Dict.Make,
    tasks := Dict.Make }

/-- Embedding of `makeBasicDB`: the same fields built on `dict.MakeSimple`. -/
def makeBasicDB {V : Type} : DB V :=
  { index := 0, data := Dict.Make, ttlMap := Dict.Make, versionMap := Dict.Make,
    tasks := Dict.Make }

/-- Embedding of `genExpireTask`. -/
def genExpireTask (key : String) : String := "expire:" ++ key

/-- Embedding of `DB.Remove`. -/
def Remove {V : Type} (db : DB V) (key : String) : DB V :=
  let data := Dict.Remove db.data key
  let ttlMap := Dict.Remove db.ttlMap key
  let taskKey := genExpireTask key
  { db with data := data, ttlMap := ttlMap, tasks := timewheel.Cancel db.tasks taskKey }

/-- Embedding of `DB.RWLocks`: the call is forwarded to the lock manager and touches
none of the maps. -/
def RWLocks {V : Type} (db : DB V) (_writeKeys _readKeys : List String) : DB V := db

/-- Embedding of `DB.RWUnLocks`. -/
def RWUnLocks {V : Type} (db : DB V) (_writeKeys _readKeys : List String) : DB V := db

/-- The body of the closure `Expire` passes to `timewheel.At`, run at instant `now`. -/
def expireCallback {V : Type} (db : DB V) (now : Time) (key : String) : DB V :=
  let keys := [key]
  let db := RWLocks db keys []
  let db :=
    match Dict.Get db.ttlMap key with
    | none => db
    | some expireTime =>
      let expired := decide (expireTime < now)
      if expired then Remove db key else db
  RWUnLocks db keys []

/-- Embedding of `DB.Expire`. -/
def Expire {V : Type} (db : DB V) (key : String) (expireTime : Time) : DB V :=
  let ttlMap := Dict.Put db.ttlMap key expireTime
  let taskKey := genExpireTask key
  { db with ttlMap := ttlMap, tasks := timewheel.At db.tasks expireTime taskKey key }

/-- Embedding of `DB.Persist`. -/
def Persist {V : Type} (db : DB V) (key : String) : DB V :=
  let ttlMap := Dict.Remove db.ttlMap key
  let taskKey := genExpireTask key
  { db with ttlMap := ttlMap, tasks := timewheel.Cancel db.tasks taskKey }

/-- Embedding of `DB.IsExpired` at instant `now`: the returned flag and the store
afterwards. -/
def IsExpired {V : Type} (db : DB V) (now : Time) (key : String) : Bool × DB V :=
  match Dict.Get db.ttlMap key with
  | none => (false, db)
  | some expireTime =>
    let expired := decide (expireTime < now)
    if expired then (expired, Remove db key) else (expired, db)

/-- The time wheel firing the task registered under `taskKey` at instant `now`: the
task leaves the table and its closure runs. Nothing happens when no such task is
pending. -/
def fire {V : Type} (db : DB V) (now : Time) (taskKey : String) : DB V :=
  match db.tasks taskKey with
  | none => db
  | some task => expireCallback { db with tasks := timewheel.Cancel db.tasks taskKey } now task.key

/-- The pending expiration task of `key`: the instant recorded under the task name
`genExpireTask key`, if any. -/
def pendingTask {V : Type} (db : DB V) (key : String) : Option Time :=
  (db.tasks (genExpireTask key)).map Task.expireTime

/-- Modelled from the spec: reading `versions[key]`, "absent key reads as version 0"
(the accessor itself is not part of `single_db.go`). -/
def GetVersion {V : Type} (db : DB V) (key : String) : Nat :=
  match Dict.Get db.versionMap key with
  | none => 0
  | some v => v

/-- Modelled from the spec: a command executor writing the entry of `key` in `data`
(the Concurrent Map `put`); the write itself is not part of `single_db.go`. -/
def putData {V : Type} (db : DB V) (key : String) (val : V) : DB V :=
  { db with data := Dict.Put db.data key val }

/-- The stores reachable from a freshly made one by `Remove`, `Expire`, `Persist`,
`IsExpired`, firings of pending tasks, and writes of entries by command executors. -/
inductive Reachable {V : Type} : DB V → Prop
  | make : Reachable makeDB
  | remove (db : DB V) (key : String) : Reachable db → Reachable (Remove db key)
  | expire (db : DB V) (key : String) (t : Time) : Reachable db → Reachable (Expire db key t)
  | persist (db : DB V) (key : String) : Reachable db → Reachable (Persist db key)
  | isExpired (db : DB V) (now : Time) (key : String) :
      Reachable db → Reachable (IsExpired db now key).2
  | fire (db : DB V) (now : Time) (taskKey : String) :
      Reachable db → Reachable (fire db now taskKey)
  | put (db : DB V) (key : String) (val : V) : Reachable db → Reachable (putData db key val)

/-- Every pending task is registered under the name of the key its closure captured,
and `ttlMap` holds for that key the instant the task is scheduled at. -/
def Consistent {V : Type} (db : DB V) : Prop :=
  ∀ (name : String) (task : Task), db.tasks name = some task →
    name = genExpireTask task.key ∧ db.ttlMap task.key = some task.expireTime

/-! ## Effect sequences -/

/-- The calls an operation of `single_db.go` makes on its collaborators, in order. -/
inductive Eff where
  | stopWorldWait
  | dataRemove (key : String)
  | ttlMapPut (key : String) (expireTime : Time)
  | ttlMapRemove (key : String)
  | ttlMapGet (key : String)
  | timewheelAt (expireTime : Time) (taskKey : String) (key : String)
  | timewheelCancel (taskKey : String)
  | lockerRWLocks (writeKeys readKeys : List String)
  | lockerRWUnLocks (writeKeys readKeys : List String)
  | loggerInfo (msg : String)
  | timeNow
  deriving DecidableEq, Repr

/-- The effect of one call on the store. -/
def applyEff {V : Type} (db : DB V) : Eff → DB V
  | .dataRemove key => { db with data := Dict.Remove db.data key }
  | .ttlMapPut key t => { db with ttlMap := Dict.Put db.ttlMap key t }
  | .ttlMapRemove key => { db with ttlMap := Dict.Remove db.ttlMap key }
  | .timewheelAt t taskKey key => { db with tasks := timewheel.At db.tasks t taskKey key }
  | .timewheelCancel taskKey => { db with tasks := timewheel.Cancel db.tasks taskKey }
  | _ => db

/-- Running a sequence of calls from left to right. -/
def runEffs {V : Type} (db : DB V) (es : List Eff) : DB V := es.foldl applyEff db

/-- The calls of `DB.Remove`, in source order. -/
def RemoveEffs (key : String) : List Eff :=
  [.stopWorldWait, .dataRemove key, .ttlMapRemove key, .timewheelCancel (genExpireTask key)]

/-- The calls of `DB.RWLocks`, in source order. -/
def RWLocksEffs (writeKeys readKeys : List String) : List Eff :=
  [.lockerRWLocks writeKeys readKeys]

/-- The calls of `DB.RWUnLocks`, in source order. -/
def RWUnLocksEffs (writeKeys readKeys : List String) : List Eff :=
  [.lockerRWUnLocks writeKeys readKeys]

/-- The calls of `DB.Expire`, in source order (the closure is only registered). -/
def ExpireEffs (key : String) (expireTime : Time) : List Eff :=
  [.stopWorldWait, .ttlMapPut key expireTime,
   .timewheelAt expireTime (genExpireTask key) key]

/-- The calls of `DB.Persist`, in source order. -/
def PersistEffs (key : String) : List Eff :=
  [.stopWorldWait, .ttlMapRemove key, .timewheelCancel (genExpireTask key)]

/-- The calls of `DB.IsExpired` at instant `now`, in source order. -/
def IsExpiredEffs {V : Type} (db : DB V) (now : Time) (key : String) : List Eff :=
  .ttlMapGet key ::
    (match Dict.Get db.ttlMap key with
     | none => []
     | some expireTime => .timeNow :: (if expireTime < now then RemoveEffs key else []))

/-- The calls of the closure scheduled by `DB.Expire`, run at instant `now`, in source
order; the deferred `RWUnLocks` comes last on every path. -/
def expireCallbackEffs {V : Type} (db : DB V) (now : Time) (key : String) : List Eff :=
  RWLocksEffs [key] [] ++ [.loggerInfo ("expire " ++ key), .ttlMapGet key] ++
    (match Dict.Get db.ttlMap key with
     | none => []
     | some expireTime => .timeNow :: (if expireTime < now then RemoveEffs key else [])) ++
    RWUnLocksEffs [key] []

/-- Whether a call reads or writes `data` or `ttlMap`, or acquires key locks. -/
def Eff.touches : Eff → Bool
  | .dataRemove _ => true
  | .ttlMapPut _ _ => true
  | .ttlMapRemove _ => true
  | .ttlMapGet _ => true
  | .lockerRWLocks _ _ => true
  | _ => false

/-- Whether a call is the wait on the pause barrier. -/
def Eff.isWait : Eff → Bool
  | .stopWorldWait => true
  | _ => false

/-- Whether some call that touches `data`, `ttlMap` or the key locks comes before the
first wait on the pause barrier (or without any wait at all). -/
def touchBeforeWait : List Eff → Bool
  | [] => false
  | e :: es => if e.isWait then false else (e.touches || touchBeforeWait es)

/-- Whether the sequence performs the wait on the pause barrier and nothing touches
`data`, `ttlMap` or the key locks before it. -/
def waitsBeforeTouching (es : List Eff) : Bool :=
  es.any Eff.isWait && !touchBeforeWait es

/-! ## Lemmas on the collaborators -/

theorem genExpireTask_injective (k1 k2 : String) (h : genExpireTask k1 = genExpireTask k2) :
    k1 = k2 := by
  unfold genExpireTask at h
  have h2 := congrArg String.data h
  simp only [String.data_append] at h2
  exact String.ext (List.append_cancel_left h2)

theorem DB.ext_fields {V : Type} (a b : DB V) (h1 : a.index = b.index) (h2 : a.data = b.data)
    (h3 : a.ttlMap = b.ttlMap) (h4 : a.versionMap = b.versionMap) (h5 : a.tasks = b.tasks) :
    a = b := by
  cases a; cases b; simp_all

/-! ## C1: `Remove` -/

/-- C1: after `Remove k` the key `k` is absent from `data` and from `ttlMap` and no
expiration task is pending under the name "expire:" followed by `k` (which is the name
`genExpireTask k`); every task under another name is untouched, and for every other key
`k2` the entry, the expiration instant and the pending task, the one named "expire:"
followed by `k2`, are what they were before the call. -/
theorem Remove_spec {V : Type} (db : DB V) (k : String) :
    (Remove db k).data k = none ∧ (Remove db k).ttlMap k = none ∧
    genExpireTask k = "expire:" ++ k ∧
    (Remove db k).tasks ("expire:" ++ k) = none ∧
    (Remove db k).tasks (genExpireTask k) = none ∧ pendingTask (Remove db k) k = none ∧
    (∀ name : String, name ≠ "expire:" ++ k → (Remove db k).tasks name = db.tasks name) ∧
    ∀ k2 : String, k2 ≠ k →
      (Remove db k).data k2 = db.data k2 ∧ (Remove db k).ttlMap k2 = db.ttlMap k2 ∧
      (Remove db k).tasks ("expire:" ++ k2) = db.tasks ("expire:" ++ k2) ∧
      (Remove db k).tasks (genExpireTask k2) = db.tasks (genExpireTask k2) ∧
      pendingTask (Remove db k) k2 = pendingTask db k2 := by
  have hframe : ∀ name : String, name ≠ "expire:" ++ k →
      (Remove db k).tasks name = db.tasks name := by
    intro name hn
    simp [Remove, Dict.Remove, timewheel.Cancel, genExpireTask, hn]
  refine ⟨?_, ?_, rfl, ?_, ?_, ?_, hframe, ?_⟩
  · simp [Remove, Dict.Remove]
  · simp [Remove, Dict.Remove]
  · simp [Remove, Dict.Remove, timewheel.Cancel, genExpireTask]
  · simp [Remove, Dict.Remove, timewheel.Cancel]
  · simp [pendingTask, Remove, Dict.Remove, timewheel.Cancel]
  · intro k2 hk
    have hn : "expire:" ++ k2 ≠ "expire:" ++ k :=
      fun h => hk (genExpireTask_injective k2 k h)
    refine ⟨?_, ?_, hframe _ hn, hframe _ hn, ?_⟩
    · simp [Remove, Dict.Remove, hk]
    · simp [Remove, Dict.Remove, hk]
    · unfold pendingTask
      rw [show (Remove db k).tasks (genExpireTask k2) = db.tasks (genExpireTask k2) from
        hframe _ hn]

/-! ## C2: `IsExpired` -/

/-- C2: `IsExpired k` at instant `now` returns true exactly when `ttlMap` holds an
instant `T` for `k` with `now` after `T`; when it returns false the store is unchanged,
when it returns true the store is the one `Remove k` produces; a key without TTL always
reads false, and after `Expire k T` a call at any `now` later than `T` returns true and
leaves `k` absent from `data`. -/
theorem IsExpired_spec {V : Type} (db : DB V) (now : Time) (k : String) :
    ((IsExpired db now k).1 = true ↔ ∃ T : Time, db.ttlMap k = some T ∧ T < now) ∧
    ((IsExpired db now k).1 = false → (IsExpired db now k).2 = db) ∧
    ((IsExpired db now k).1 = true → (IsExpired db now k).2 = Remove db k) ∧
    (db.ttlMap k = none → (IsExpired db now k).1 = false) ∧
    (∀ T : Time, T < now →
      (IsExpired (Expire db k T) now k).1 = true ∧
      (IsExpired (Expire db k T) now k).2.data k = none) := by
  refine ⟨?_, ?_, ?_, ?_, ?_⟩
  · unfold IsExpired Dict.Get
    cases h : db.ttlMap k with
    | none => simp
    | some T => by_cases hT : T < now <;> simp [hT]
  · unfold IsExpired Dict.Get
    cases h : db.ttlMap k with
    | none => simp
    | some T => by_cases hT : T < now <;> simp [hT]
  · unfold IsExpired Dict.Get
    cases h : db.ttlMap k with
    | none => simp
    | some T => by_cases hT : T < now <;> simp [hT]
  · intro h
    simp [IsExpired, Dict.Get, h]
  · intro T hT
    simp [IsExpired, Dict.Get, Expire, Dict.Put, hT, Remove, Dict.Remove]

/-! ## C3: `Expire` -/

/-- C3: after `Expire k t` the map `ttlMap` holds `t` for `k` and a task is pending
under the name "expire:" followed by `k` (which is the name `genExpireTask k`), scheduled
at `t` with the closure of `k`, whatever was scheduled under that name before; the tasks
under every other name, `data`, and every other key's instant and task (the one named
"expire:" followed by that key) are unchanged; and `Expire k T1` followed by
`Expire k T2` yields the store of `Expire k T2` alone. -/
theorem Expire_spec {V : Type} (db : DB V) (k : String) (t : Time) :
    (Expire db k t).ttlMap k = some t ∧
    genExpireTask k = "expire:" ++ k ∧
    (Expire db k t).tasks ("expire:" ++ k) = some ⟨t, k⟩ ∧
    (∀ name : String, name ≠ "expire:" ++ k → (Expire db k t).tasks name = db.tasks name) ∧
    (Expire db k t).tasks (genExpireTask k) = some ⟨t, k⟩ ∧
    pendingTask (Expire db k t) k = some t ∧
    (∀ name : String, name ≠ genExpireTask k → (Expire db k t).tasks name = db.tasks name) ∧
    (Expire db k t).data = db.data ∧
    (∀ k2 : String, k2 ≠ k →
      (Expire db k t).ttlMap k2 = db.ttlMap k2 ∧
      (Expire db k t).tasks ("expire:" ++ k2) = db.tasks ("expire:" ++ k2) ∧
      (Expire db k t).tasks (genExpireTask k2) = db.tasks (genExpireTask k2) ∧
      pendingTask (Expire db k t) k2 = pendingTask db k2) ∧
    (∀ T1 : Time, Expire (Expire db k T1) k t = Expire db k t) := by
  have hframe : ∀ name : String, name ≠ "expire:" ++ k →
      (Expire db k t).tasks name = db.tasks name := by
    intro name hn
    simp [Expire, Dict.Put, timewheel.At, genExpireTask, hn]
  refine ⟨?_, rfl, ?_, hframe, ?_, ?_, hframe, ?_, ?_, ?_⟩
  · simp [Expire, Dict.Put]
  · simp [Expire, Dict.Put, timewheel.At, genExpireTask]
  · simp [Expire, Dict.Put, timewheel.At]
  · simp [pendingTask, Expire, Dict.Put, timewheel.At]
  · rfl
  · intro k2 hk
    have hn : "expire:" ++ k2 ≠ "expire:" ++ k :=
      fun h => hk (genExpireTask_injective k2 k h)
    refine ⟨?_, hframe _ hn, hframe _ hn, ?_⟩
    · simp [Expire, Dict.Put, hk]
    · unfold pendingTask
      rw [show (Expire db k t).tasks (genExpireTask k2) = db.tasks (genExpireTask k2) from
        hframe _ hn]
  · intro T1
    apply DB.ext_fields
    · rfl
    · rfl
    · funext x
      by_cases hx : x = k <;> simp [Expire, Dict.Put, hx]
    · rfl
    · funext x
      by_cases hx : x = genExpireTask k <;> simp [Expire, Dict.Put, timewheel.At, hx]

/-! ## C4 and C5: the closure scheduled by `Expire` -/

/-- C4: when the closure scheduled for `k` runs at `now` while `ttlMap` has no instant
for `k`, or holds an instant `T2` with `now` before `T2`, the store is left as it was
(so `data` and `ttlMap` are unchanged); in particular after `Expire k T1` and then
`Expire k T2` with `now < T2`, running the closure, or firing the pending task, removes
neither the entry of `k` nor its instant `T2`. -/
theorem expireCallback_stale {V : Type} (db : DB V) (now : Time) (k : String) :
    ((db.ttlMap k = none ∨ ∃ T2 : Time, db.ttlMap k = some T2 ∧ now < T2) →
      expireCallback db now k = db ∧ (expireCallback db now k).data = db.data ∧
      (expireCallback db now k).ttlMap = db.ttlMap) ∧
    (∀ T1 T2 : Time, now < T2 →
      (expireCallback (Expire (Expire db k T1) k T2) now k).data = db.data ∧
      (expireCallback (Expire (Expire db k T1) k T2) now k).ttlMap k = some T2 ∧
      (fire (Expire (Expire db k T1) k T2) now (genExpireTask k)).data = db.data ∧
      (fire (Expire (Expire db k T1) k T2) now (genExpireTask k)).ttlMap k = some T2) := by
  have key : ∀ (s : DB V), (s.ttlMap k = none ∨ ∃ T2 : Time, s.ttlMap k = some T2 ∧ now < T2) →
      expireCallback s now k = s := by
    intro s h
    unfold expireCallback RWLocks RWUnLocks Dict.Get
    rcases h with h | ⟨T2, h, hT⟩
    · simp [h]
    · have hn : ¬ T2 < now := not_lt.mpr (le_of_lt hT)
      simp [h, hn]
  refine ⟨?_, ?_⟩
  · intro h
    rw [key db h]
    exact ⟨rfl, rfl, rfl⟩
  · intro T1 T2 hT
    have e1 : expireCallback (Expire (Expire db k T1) k T2) now k
        = Expire (Expire db k T1) k T2 :=
      key _ (Or.inr ⟨T2, by simp [Expire, Dict.Put], hT⟩)
    have e2 : fire (Expire (Expire db k T1) k T2) now (genExpireTask k)
        = { Expire (Expire db k T1) k T2 with
            tasks := timewheel.Cancel (Expire (Expire db k T1) k T2).tasks (genExpireTask k) } := by
      have ht : (Expire (Expire db k T1) k T2).tasks (genExpireTask k) = some ⟨T2, k⟩ := by
        simp [Expire, Dict.Put, timewheel.At]
      unfold fire
      rw [ht]
      exact key _ (Or.inr ⟨T2, by simp [Expire, Dict.Put], hT⟩)
    rw [e1, e2]
    refine ⟨rfl, ?_, rfl, ?_⟩ <;> simp [Expire, Dict.Put]

/-- C5, as stated, fails at `now = T`: with `ttlMap` holding `5` for the key "x" and the
closure running at instant `5` (so `now ≥ T`), the entry and the instant of "x" are both
still there. -/
theorem expireCallback_at_deadline_keeps :
    (Expire { (makeDB : DB Nat) with data := Dict.Put Dict.Make "x" 7 } "x" 5).ttlMap "x"
      = some 5 ∧
    (5 : Time) ≥ 5 ∧
    (expireCallback (Expire { (makeDB : DB Nat) with data := Dict.Put Dict.Make "x" 7 } "x" 5)
        5 "x").data "x" = some 7 ∧
    (expireCallback (Expire { (makeDB : DB Nat) with data := Dict.Put Dict.Make "x" 7 } "x" 5)
        5 "x").ttlMap "x" = some 5 := by
  decide

/-- C5, amended: when the closure for `k` runs at `now` and `ttlMap` holds an instant `T`
for `k` with `now` strictly after `T`, the closure removes `k`: afterwards `k` is absent
from `data` and from `ttlMap`, the store being the one `Remove k` produces. -/
theorem expireCallback_removes {V : Type} (db : DB V) (now T : Time) (k : String)
    (hT : db.ttlMap k = some T) (hnow : T < now) :
    expireCallback db now k = Remove db k ∧ (expireCallback db now k).data k = none ∧
    (expireCallback db now k).ttlMap k = none := by
  have e : expireCallback db now k = Remove db k := by
    simp [expireCallback, RWLocks, RWUnLocks, Dict.Get, hT, hnow]
  rw [e]
  exact ⟨rfl, by simp [Remove, Dict.Remove], by simp [Remove, Dict.Remove]⟩

theorem expireCallback_removes_witness :
    (Expire (makeDB : DB Nat) "x" 5).ttlMap "x" = some 5 ∧ (5 : Time) < 6 ∧
    (expireCallback (Expire (makeDB : DB Nat) "x" 5) 6 "x" = Remove (Expire makeDB "x" 5) "x" ∧
     (expireCallback (Expire (makeDB : DB Nat) "x" 5) 6 "x").data "x" = none ∧
     (expireCallback (Expire (makeDB : DB Nat) "x" 5) 6 "x").ttlMap "x" = none) :=
  ⟨by decide, by decide,
    expireCallback_removes (Expire makeDB "x" 5) 6 5 "x" (by decide) (by decide)⟩

/-! ## The scheduler and TTL invariant -/

theorem Consistent_makeDB {V : Type} : Consistent (makeDB : DB V) := by
  intro name task h
  simp [makeDB, Dict.Make] at h

theorem Consistent_Remove {V : Type} (db : DB V) (key : String) (h : Consistent db) :
    Consistent (Remove db key) := by
  intro name task ht
  simp only [Remove, timewheel.Cancel, Dict.Remove] at ht ⊢
  by_cases hn : name = genExpireTask key
  · simp [hn] at ht
  · simp only [hn, if_false] at ht
    obtain ⟨h1, h2⟩ := h name task ht
    have hk : task.key ≠ key := fun e => hn (by rw [h1, e])
    exact ⟨h1, by simp [hk, h2]⟩

theorem Consistent_Persist {V : Type} (db : DB V) (key : String) (h : Consistent db) :
    Consistent (Persist db key) := by
  intro name task ht
  simp only [Persist, timewheel.Cancel, Dict.Remove] at ht ⊢
  by_cases hn : name = genExpireTask key
  · simp [hn] at ht
  · simp only [hn, if_false] at ht
    obtain ⟨h1, h2⟩ := h name task ht
    have hk : task.key ≠ key := fun e => hn (by rw [h1, e])
    exact ⟨h1, by simp [hk, h2]⟩

theorem Consistent_Expire {V : Type} (db : DB V) (key : String) (t : Time)
    (h : Consistent db) : Consistent (Expire db key t) := by
  intro name task ht
  simp only [Expire, timewheel.At, Dict.Put] at ht ⊢
  by_cases hn : name = genExpireTask key
  · simp only [hn, if_true, Option.some.injEq] at ht
    subst ht
    exact ⟨hn, by simp⟩
  · simp only [hn, if_false] at ht
    obtain ⟨h1, h2⟩ := h name task ht
    have hk : task.key ≠ key := fun e => hn (by rw [h1, e])
    exact ⟨h1, by simp [hk, h2]⟩

theorem expireCallback_cases {V : Type} (db : DB V) (now : Time) (key : String) :
    expireCallback db now key = db ∨ expireCallback db now key = Remove db key := by
  simp only [expireCallback, RWLocks, RWUnLocks, Dict.Get]
  split
  · exact Or.inl rfl
  · split
    · exact Or.inr rfl
    · exact Or.inl rfl

theorem Consistent_expireCallback {V : Type} (db : DB V) (now : Time) (key : String)
    (h : Consistent db) : Consistent (expireCallback db now key) := by
  rcases expireCallback_cases db now key with e | e <;> rw [e]
  · exact h
  · exact Consistent_Remove db key h

theorem Consistent_IsExpired {V : Type} (db : DB V) (now : Time) (key : String)
    (h : Consistent db) : Consistent (IsExpired db now key).2 := by
  unfold IsExpired Dict.Get
  cases hT : db.ttlMap key with
  | none => simpa using h
  | some T =>
    by_cases hlt : T < now
    · simpa [hlt] using Consistent_Remove db key h
    · simpa [hlt] using h

theorem Consistent_fire {V : Type} (db : DB V) (now : Time) (taskKey : String)
    (h : Consistent db) : Consistent (fire db now taskKey) := by
  unfold fire
  cases hT : db.tasks taskKey with
  | none => simpa using h
  | some task =>
    apply Consistent_expireCallback
    intro name t ht
    simp only [timewheel.Cancel, Dict.Remove] at ht ⊢
    by_cases hn : name = taskKey
    · simp [hn] at ht
    · simp only [hn, if_false] at ht
      exact h name t ht

theorem Consistent_of_Reachable {V : Type} (db : DB V) (h : Reachable db) : Consistent db := by
  induction h with
  | make => exact Consistent_makeDB
  | remove db key _ ih => exact Consistent_Remove db key ih
  | expire db key t _ ih => exact Consistent_Expire db key t ih
  | persist db key _ ih => exact Consistent_Persist db key ih
  | isExpired db now key _ ih => exact Consistent_IsExpired db now key ih
  | fire db now taskKey _ ih => exact Consistent_fire db now taskKey ih
  | put db key val _ ih => exact ih

theorem no_task_of_no_ttl {V : Type} (db : DB V) (k : String) (h : Consistent db)
    (ht : db.ttlMap k = none) : db.tasks (genExpireTask k) = none := by
  cases hT : db.tasks (genExpireTask k) with
  | none => rfl
  | some task =>
    obtain ⟨h1, h2⟩ := h _ task hT
    have hk : k = task.key := genExpireTask_injective _ _ h1
    rw [← hk, ht] at h2
    exact absurd h2 (by simp)

/-! ## C6: `Persist` -/

/-- C6: after `Persist k` the key `k` has no instant in `ttlMap` and no pending
expiration task, while `data` and every other key's instant and task are unchanged; and
in every reachable store in which `k` has no TTL, `Persist k` changes nothing at all. -/
theorem Persist_spec {V : Type} (db : DB V) (k : String) :
    (Persist db k).ttlMap k = none ∧ (Persist db k).tasks (genExpireTask k) = none ∧
    pendingTask (Persist db k) k = none ∧ (Persist db k).data = db.data ∧
    (∀ k2 : String, k2 ≠ k →
      (Persist db k).ttlMap k2 = db.ttlMap k2 ∧
      (Persist db k).tasks (genExpireTask k2) = db.tasks (genExpireTask k2) ∧
      pendingTask (Persist db k) k2 = pendingTask db k2) ∧
    (Reachable db → db.ttlMap k = none → Persist db k = db) := by
  refine ⟨?_, ?_, ?_, ?_, ?_, ?_⟩
  · simp [Persist, Dict.Remove]
  · simp [Persist, Dict.Remove, timewheel.Cancel]
  · simp [pendingTask, Persist, Dict.Remove, timewheel.Cancel]
  · rfl
  · intro k2 hk
    have hn : genExpireTask k2 ≠ genExpireTask k := fun h => hk (genExpireTask_injective _ _ h)
    simp [pendingTask, Persist, Dict.Remove, timewheel.Cancel, hk, hn]
  · intro hr ht
    have hc := no_task_of_no_ttl db k (Consistent_of_Reachable db hr) ht
    apply DB.ext_fields
    · rfl
    · rfl
    · funext x
      by_cases hx : x = k <;> simp [Persist, Dict.Remove, hx, ht]
    · rfl
    · funext x
      by_cases hx : x = genExpireTask k <;> simp [Persist, Dict.Remove, timewheel.Cancel, hx, hc]

theorem Persist_spec_witness :
    (Persist (putData (makeDB : DB Nat) "a" 1) "a").data "a" = some 1 ∧
    Persist (putData (makeDB : DB Nat) "a" 1) "a" = putData makeDB "a" 1 :=
  ⟨by decide,
   (Persist_spec (putData (makeDB : DB Nat) "a" 1) "a").2.2.2.2.2
     (Reachable.put _ _ _ Reachable.make) (by decide)⟩

/-! ## C7: `Remove` on an absent key -/

/-- C7, as stated, fails: the store reached by `Expire "a" 5` on a fresh store has no
entry for "a" in `data`, yet `Remove "a"` changes it, dropping the instant of "a" from
`ttlMap` and its pending task. -/
theorem Remove_absent_entry_changes :
    Reachable (Expire (makeDB : DB Nat) "a" 5) ∧
    (Expire (makeDB : DB Nat) "a" 5).data "a" = none ∧
    (Remove (Expire (makeDB : DB Nat) "a" 5) "a").ttlMap "a" ≠
      (Expire (makeDB : DB Nat) "a" 5).ttlMap "a" ∧
    (Remove (Expire (makeDB : DB Nat) "a" 5) "a").tasks (genExpireTask "a") ≠
      (Expire (makeDB : DB Nat) "a" 5).tasks (genExpireTask "a") := by
  refine ⟨Reachable.expire _ _ _ Reachable.make, ?_, ?_, ?_⟩ <;> decide

/-- C7, amended: in every reachable store, for every key `k` present neither in `data`
nor in `ttlMap`, `Remove k` leaves `data`, `ttlMap` and the pending tasks unchanged;
and in every store a second `Remove k` directly after a first changes nothing. -/
theorem Remove_absent_noop {V : Type} (db : DB V) (k : String) :
    (Reachable db → db.data k = none → db.ttlMap k = none → Remove db k = db) ∧
    Remove (Remove db k) k = Remove db k := by
  refine ⟨?_, ?_⟩
  · intro hr hd ht
    have hc := no_task_of_no_ttl db k (Consistent_of_Reachable db hr) ht
    apply DB.ext_fields
    · rfl
    · funext x
      by_cases hx : x = k <;> simp [Remove, Dict.Remove, hx, hd]
    · funext x
      by_cases hx : x = k <;> simp [Remove, Dict.Remove, hx, ht]
    · rfl
    · funext x
      by_cases hx : x = genExpireTask k <;> simp [Remove, Dict.Remove, timewheel.Cancel, hx, hc]
  · apply DB.ext_fields
    · rfl
    · funext x
      by_cases hx : x = k <;> simp [Remove, Dict.Remove, hx]
    · funext x
      by_cases hx : x = k <;> simp [Remove, Dict.Remove, hx]
    · rfl
    · funext x
      by_cases hx : x = genExpireTask k <;> simp [Remove, Dict.Remove, timewheel.Cancel, hx]

theorem Remove_absent_noop_witness :
    Remove (putData (makeDB : DB Nat) "b" 1) "a" = putData makeDB "b" 1 ∧
    (Remove (putData (makeDB : DB Nat) "b" 1) "a").data "b" = some 1 :=
  ⟨(Remove_absent_noop (putData (makeDB : DB Nat) "b" 1) "a").1
     (Reachable.put _ _ _ Reachable.make) (by decide) (by decide),
   by decide⟩

/-! ## C8: versions -/

/-- C8, as stated, fails: on a fresh store the version of "a" reads 0, and it still
reads 0 after `Expire`, after `Persist`, after `Remove`, after an `IsExpired` that
removes the key and after the firing of the expiration task that removes the key: none
of the five yields a larger version. -/
theorem versions_not_incremented :
    GetVersion (makeDB : DB Nat) "a" = 0 ∧
    ¬ (GetVersion (makeDB : DB Nat) "a" < GetVersion (Expire (makeDB : DB Nat) "a" 5) "a") ∧
    ¬ (GetVersion (Expire (makeDB : DB Nat) "a" 5) "a" <
        GetVersion (Persist (Expire (makeDB : DB Nat) "a" 5) "a") "a") ∧
    ¬ (GetVersion (Expire (makeDB : DB Nat) "a" 5) "a" <
        GetVersion (Remove (Expire (makeDB : DB Nat) "a" 5) "a") "a") ∧
    (IsExpired (Expire (makeDB : DB Nat) "a" 5) 6 "a").1 = true ∧
    ¬ (GetVersion (Expire (makeDB : DB Nat) "a" 5) "a" <
        GetVersion (IsExpired (Expire (makeDB : DB Nat) "a" 5) 6 "a").2 "a") ∧
    (fire (Expire (makeDB : DB Nat) "a" 5) 6 (genExpireTask "a")).ttlMap "a" = none ∧
    ¬ (GetVersion (Expire (makeDB : DB Nat) "a" 5) "a" <
        GetVersion (fire (Expire (makeDB : DB Nat) "a" 5) 6 (genExpireTask "a")) "a") := by
  decide

/-- C8, amended: `Remove`, `Expire`, `Persist`, `IsExpired`, the closure scheduled by
`Expire` and the firing of a pending task all leave `versionMap` as it was, so the
version of every key sampled after any of them equals the version sampled before
(never smaller, never larger); and a key absent from `versionMap` reads as version 0. -/
theorem versions_unchanged {V : Type} (db : DB V) (k key : String) (t now : Time) :
    (Remove db k).versionMap = db.versionMap ∧
    (Expire db k t).versionMap = db.versionMap ∧
    (Persist db k).versionMap = db.versionMap ∧
    (IsExpired db now k).2.versionMap = db.versionMap ∧
    (expireCallback db now k).versionMap = db.versionMap ∧
    (fire db now k).versionMap = db.versionMap ∧
    GetVersion (Remove db k) key = GetVersion db key ∧
    GetVersion (Expire db k t) key = GetVersion db key ∧
    GetVersion (Persist db k) key = GetVersion db key ∧
    GetVersion (IsExpired db now k).2 key = GetVersion db key ∧
    GetVersion (expireCallback db now k) key = GetVersion db key ∧
    GetVersion (fire db now k) key = GetVersion db key ∧
    (db.versionMap key = none → GetVersion db key = 0) := by
  have hcb : ∀ (s : DB V) (x : String), (expireCallback s now x).versionMap = s.versionMap := by
    intro s x
    rcases expireCallback_cases s now x with e | e <;> rw [e]
    rfl
  have hie : (IsExpired db now k).2.versionMap = db.versionMap := by
    simp only [IsExpired, Dict.Get]
    split
    · rfl
    · split <;> rfl
  have hfire : (fire db now k).versionMap = db.versionMap := by
    simp only [fire]
    split
    · rfl
    · rw [hcb]
  refine ⟨rfl, rfl, rfl, hie, hcb db k, hfire, rfl, rfl, rfl, ?_, ?_, ?_, ?_⟩
  · simp only [GetVersion, hie]
  · simp only [GetVersion, hcb]
  · simp only [GetVersion, hfire]
  · intro h
    simp [GetVersion, Dict.Get, h]

/-! ## C9: the pause barrier in the effect sequences -/

/-- C9, as stated, fails for the lock-acquire path: the calls of `RWLocks ["a"] []` are
the lock acquisition alone, with no wait on the pause barrier before it (or at all). -/
theorem RWLocks_without_wait :
    RWLocksEffs ["a"] [] = [Eff.lockerRWLocks ["a"] []] ∧
    (RWLocksEffs ["a"] []).any Eff.isWait = false ∧
    touchBeforeWait (RWLocksEffs ["a"] []) = true ∧
    waitsBeforeTouching (RWLocksEffs ["a"] []) = false := by
  decide

/-- C9, amended: `Remove`, `Expire` and `Persist` each perform the wait on the pause
barrier as their first call, before any read or write of `data` or `ttlMap` (their
effect sequences, run in order, give exactly the stores of `Remove`, `Expire` and
`Persist`); `RWLocks` forwards to the lock manager without any wait on the barrier. -/
theorem wait_first_in_key_operations {V : Type} (db : DB V) (k : String) (t : Time)
    (writeKeys readKeys : List String) :
    (runEffs db (RemoveEffs k) = Remove db k ∧ (RemoveEffs k).head? = some Eff.stopWorldWait ∧
      waitsBeforeTouching (RemoveEffs k) = true) ∧
    (runEffs db (ExpireEffs k t) = Expire db k t ∧
      (ExpireEffs k t).head? = some Eff.stopWorldWait ∧
      waitsBeforeTouching (ExpireEffs k t) = true) ∧
    (runEffs db (PersistEffs k) = Persist db k ∧
      (PersistEffs k).head? = some Eff.stopWorldWait ∧
      waitsBeforeTouching (PersistEffs k) = true) ∧
    (runEffs db (RWLocksEffs writeKeys readKeys) = RWLocks db writeKeys readKeys ∧
      (RWLocksEffs writeKeys readKeys).any Eff.isWait = false ∧
      waitsBeforeTouching (RWLocksEffs writeKeys readKeys) = false) := by
  refine ⟨⟨rfl, rfl, rfl⟩, ⟨rfl, rfl, rfl⟩, ⟨rfl, rfl, rfl⟩, ⟨rfl, rfl, rfl⟩⟩

/-! ## C10: the scheduler and TTL consistency invariant -/

/-- C10: in every store reachable from a freshly made one by `Remove`, `Expire`,
`Persist`, `IsExpired` and firings of pending tasks (and writes of entries), whenever
an expiration task for `k` is pending with scheduled instant `T`, `ttlMap` holds `T`
for `k`; and task names are injective in the key. -/
theorem pending_task_has_ttl {V : Type} (db : DB V) (h : Reachable db) :
    (∀ (k : String) (T : Time), pendingTask db k = some T → db.ttlMap k = some T) ∧
    (∀ (name : String) (task : Task), db.tasks name = some task →
      name = genExpireTask task.key ∧ db.ttlMap task.key = some task.expireTime) ∧
    (∀ k1 k2 : String, genExpireTask k1 = genExpireTask k2 → k1 = k2) := by
  have hc := Consistent_of_Reachable db h
  refine ⟨?_, hc, genExpireTask_injective⟩
  intro k T hp
  unfold pendingTask at hp
  cases hT : db.tasks (genExpireTask k) with
  | none => simp [hT] at hp
  | some task =>
    simp only [hT, Option.map_some', Option.some.injEq] at hp
    obtain ⟨h1, h2⟩ := hc _ task hT
    have hk : k = task.key := genExpireTask_injective _ _ h1
    rw [hk, h2, hp]

theorem pending_task_has_ttl_witness :
    pendingTask (Expire (Remove (Expire (makeDB : DB Nat) "a" 3) "a") "a" 5) "a" = some 5 ∧
    (Expire (Remove (Expire (makeDB : DB Nat) "a" 3) "a") "a" 5).ttlMap "a" = some 5 :=
  ⟨by decide,
   (pending_task_has_ttl (Expire (Remove (Expire (makeDB : DB Nat) "a" 3) "a") "a" 5)
     (Reachable.expire _ _ _ (Reachable.remove _ _ (Reachable.expire _ _ _ Reachable.make)))).1
     "a" 5 (by decide)⟩

end Godis
